import Mathlib

/-!
Shallow embedding of the FAT12 filesystem layer of the second-stage boot
loader (src/src/bootloader/file.c, with the ASSERT macro of
src/src/bootloader/debug.h), and proofs about the claims of its
specification.

Modelling conventions:
* Machine integers are naturals; every C operation on a `uint32_t` is
  followed by `% U32`, a read of a `uint8_t` by `% 256`.
* Memory regions (the mapped partition image, the destination buffer, a
  path string) are total functions `Nat → Nat` from offsets to bytes.
* A fatal assertion (the ASSERT macro) is modelled as a dedicated
  "halted" result (`Option.none`, `RResult.halt`): the intended
  conditional-halt semantics of ASSERT, as written in the fixed macro of
  src/bootloader/debug.h.  The macro that file.c actually includes
  (src/src/bootloader/debug.h) has its infinite loop outside the `if`
  and therefore diverges unconditionally; that literal behaviour is
  embedded separately as a statement skeleton (`CStmt`) below.
* `struct BPB` and `struct DirEntry` are declared in file.h, which is
  not part of the sources; their fields are reconstructed from their
  uses in file.c and from the specification (see the doc comments).
-/

namespace Rebel

/-- The modulus of `uint32_t` arithmetic. -/
def U32 : Nat := 4294967296

/-- Reads one byte (`uint8_t`) of a memory region. -/
def readU8 (img : Nat → Nat) (a : Nat) : Nat := img a % 256

/-- Reads a little-endian `uint16_t` of a memory region (x86). -/
def readU16 (img : Nat → Nat) (a : Nat) : Nat :=
  readU8 img a + 256 * readU8 img (a + 1)

/-- Modelled from the spec: the fields of `struct BPB` consumed by file.c
(file.h is not among the sources).  The field names are exactly the ones
file.c dereferences; spec section 3 lists the same six fields. -/
structure BPB where
  bytes_per_sector : Nat
  sectors_per_cluster : Nat
  reserved_sector_count : Nat
  fat_count : Nat
  sectors_per_fat : Nat
  root_entry_count : Nat
deriving DecidableEq

/-- Modelled from the spec: `sizeof(struct DirEntry)`.  file.h is not among
the sources; the spec describes the standard FAT 8.3 directory record
(name[8], ext[3], attributes, file_size u32, cluster_index, plus unused
fields), which is 32 bytes. -/
def sizeof_DirEntry : Nat := 32

/-- Modelled from the spec: the fields of `struct DirEntry` used by file.c
(file.h is not among the sources).  `name` and `ext` are byte lists of
intended lengths 8 and 3. -/
structure DirEntry where
  name : List Nat
  ext : List Nat
  attributes : Nat
  cluster_index : Nat
  file_size : Nat
deriving DecidableEq

/-- The `memmove` collaborator of lib.h, copying `n` bytes from offset
`src` of the (read-only) partition image `img` into the destination
memory `mem` at address `dst`. -/
def memmove_from_img (mem : Nat → Nat) (dst : Nat) (img : Nat → Nat)
    (src n : Nat) : Nat → Nat :=
  fun a => if dst ≤ a ∧ a < dst + n then readU8 img (src + (a - dst)) else mem a

/-- Source: `get_fat_table` of file.c.  The FAT table pointer, as a byte
offset from the BPB base: `reserved_sector_count * bytes_per_sector`
(a `uint32_t` product). -/
def get_fat_table (bpb : BPB) : Nat :=
  (bpb.reserved_sector_count * bpb.bytes_per_sector) % U32

/-- Source: `get_cluster_value` of file.c.  VALIDATE_CLUSTER_INDEX (the
index must lie in [2, 65535]) is modelled as the conditional halt `none`;
otherwise the `uint16_t` FAT entry `fat_table[cluster_index]` is read from
the partition image. -/
def get_cluster_value (bpb : BPB) (img : Nat → Nat) (cluster_index : Nat) :
    Option Nat :=
  if 2 ≤ cluster_index ∧ cluster_index ≤ 65535 then
    some (readU16 img (get_fat_table bpb + 2 * cluster_index))
  else none

/-- Source: `get_cluster_size` of file.c:
`(uint32_t)bytes_per_sector * sectors_per_cluster`. -/
def get_cluster_size (bpb : BPB) : Nat :=
  (bpb.bytes_per_sector * bpb.sectors_per_cluster) % U32

/-- Source: `get_data_offset` of file.c.  VALIDATE_CLUSTER_INDEX is the
conditional halt `none`; the offset itself is the `uint32_t` arithmetic of
the source, line by line. -/
def get_data_offset (bpb : BPB) (cluster_index : Nat) : Option Nat :=
  if 2 ≤ cluster_index ∧ cluster_index ≤ 65535 then
    some ((((((bpb.reserved_sector_count * bpb.bytes_per_sector) % U32 +
        (((bpb.fat_count * bpb.sectors_per_fat) % U32) * bpb.bytes_per_sector) % U32) % U32 +
        (bpb.root_entry_count * sizeof_DirEntry) % U32) % U32) +
        ((cluster_index - 2) * get_cluster_size bpb) % U32) % U32)
  else none

/-- Result of `read_raw_data`: either a fatal halt (ASSERT fired), or the
returned byte count together with the final destination memory. -/
inductive RResult where
  | halt : (Nat → Nat) → RResult
  | ok : Nat → (Nat → Nat) → RResult

/-- The destination memory carried by a `RResult`. -/
def RResult.memOf : RResult → (Nat → Nat)
  | .halt m => m
  | .ok _ m => m

/-- One iteration of the `while (read_size < size)` loop of
`read_raw_data` (file.c): check the FAT value of the current cluster,
halt on the bad-cluster marker 0xFFF7, copy the remaining bytes and stop
on an end-of-chain marker (value ≥ 0xFFF8), otherwise copy one full
cluster and continue with `++cluster_index`. -/
inductive StepResult where
  | halt : (Nat → Nat) → StepResult
  | done : Nat → (Nat → Nat) → StepResult
  | next : Nat → Nat → Nat → Nat → (Nat → Nat) → StepResult

/-- The loop body of `read_raw_data` as a single step (source lines
179-201 of file.c). -/
def read_step (bpb : BPB) (img : Nat → Nat) (size cluster_index read_size data buffer : Nat)
    (mem : Nat → Nat) : StepResult :=
  if read_size < size then
    match get_cluster_value bpb img cluster_index with
    | none => .halt mem
    | some cluster_value =>
      if cluster_value = 65527 then
        .halt mem
      else if 65528 ≤ cluster_value then
        .done ((read_size + (size - read_size)) % U32)
          (memmove_from_img mem buffer img data (size - read_size))
      else
        .next ((cluster_index + 1) % U32) ((read_size + get_cluster_size bpb) % U32)
          (data + get_cluster_size bpb) (buffer + get_cluster_size bpb)
          (memmove_from_img mem buffer img data (get_cluster_size bpb))
  else .done read_size mem

/-- The cluster index the loop continues with, if it continues. -/
def StepResult.next_index : StepResult → Option Nat
  | .next ci _ _ _ _ => some ci
  | _ => none

/-- The `while (read_size < size)` loop of `read_raw_data` (file.c).
Terminates because `++cluster_index` strictly grows and
VALIDATE_CLUSTER_INDEX inside `get_cluster_value` halts once the index
leaves [2, 65535]. -/
def read_loop (bpb : BPB) (img : Nat → Nat) (size cluster_index read_size data buffer : Nat)
    (mem : Nat → Nat) : RResult :=
  if read_size < size then
    match h : get_cluster_value bpb img cluster_index with
    | none => .halt mem
    | some cluster_value =>
      if cluster_value = 65527 then
        .halt mem
      else if 65528 ≤ cluster_value then
        .ok ((read_size + (size - read_size)) % U32)
          (memmove_from_img mem buffer img data (size - read_size))
      else
        read_loop bpb img size ((cluster_index + 1) % U32)
          ((read_size + get_cluster_size bpb) % U32)
          (data + get_cluster_size bpb) (buffer + get_cluster_size bpb)
          (memmove_from_img mem buffer img data (get_cluster_size bpb))
  else .ok read_size mem
termination_by 65536 - cluster_index
decreasing_by
  simp only [get_cluster_value] at h
  split at h
  · rename_i hv
    have hm : (cluster_index + 1) % U32 = cluster_index + 1 :=
      Nat.mod_eq_of_lt (by simp only [U32]; omega)
    omega
  · simp at h

/-- Source: `read_raw_data` of file.c.  The entry VALIDATE_CLUSTER_INDEX
and the one inside `get_data_offset` are the conditional halt; `data` is
the byte offset of the start cluster inside the partition image. -/
def read_raw_data (bpb : BPB) (img : Nat → Nat) (cluster_index buffer size : Nat)
    (mem : Nat → Nat) : RResult :=
  if 2 ≤ cluster_index ∧ cluster_index ≤ 65535 then
    match get_data_offset bpb cluster_index with
    | some data => read_loop bpb img size cluster_index 0 data buffer mem
    | none => .halt mem
  else .halt mem

/-- Source: the first loop of `split_path` (file.c): copy up to 8 name
characters, stopping at a dot or at the terminator, failing on a slash. -/
def split_name_loop (path : Nat → Nat) (i : Nat) (nm : List Nat) :
    Option (Nat × List Nat) :=
  if h : i < 8 ∧ path i ≠ 46 ∧ path i ≠ 0 then
    if path i = 47 then none
    else split_name_loop path (i + 1) (nm.set i (path i))
  else some (i, nm)
termination_by 8 - i
decreasing_by omega

/-- Source: the second loop of `split_path` (file.c): copy up to 3
extension characters, stopping at the terminator, failing on a slash. -/
def split_ext_loop (path : Nat → Nat) (i j : Nat) (ex : List Nat) :
    Option (Nat × List Nat) :=
  if h : j < 3 ∧ path i ≠ 0 then
    if path i = 47 then none
    else split_ext_loop path (i + 1) (j + 1) (ex.set j (path i))
  else some (i, ex)
termination_by 3 - j
decreasing_by omega

/-- Source: `split_path` of file.c.  The name and extension buffers start
space-padded (8 resp. 3 spaces, byte 32); the final check requires the
terminator right after what was consumed.  `none` is `return false`. -/
def split_path (path : Nat → Nat) : Option (List Nat × List Nat) :=
  match split_name_loop path 0 (List.replicate 8 32) with
  | none => none
  | some (i, nm) =>
    match (if path i = 46 then split_ext_loop path (i + 1) 0 (List.replicate 3 32)
           else some (i, List.replicate 3 32)) with
    | none => none
    | some (i2, ex) => if path i2 ≠ 0 then none else some (nm, ex)

/-- The `memcmp(a, b, n) == 0` collaborator of lib.h on byte lists. -/
def memcmp_eq (a b : List Nat) (n : Nat) : Bool :=
  (List.range n).all fun k => a.getD k 0 == b.getD k 0

/-- Source: `is_file_name_equal` of file.c: memcmp of the 8 name bytes and
of the 3 extension bytes. -/
def is_file_name_equal (entry : DirEntry) (nm ex : List Nat) : Bool :=
  memcmp_eq entry.name nm 8 && memcmp_eq entry.ext ex 3

/-- Source: the scan loop of `search_file` (file.c) over the root
directory (modelled as `rootdir : Nat → DirEntry`, the array view whose
record layout lives in the missing file.h): skip entries whose first name
byte is 0x00 (empty) or 0xE5 (deleted), skip entries whose attributes
equal 0x0F (long-filename fragment), return the first byte-for-byte
match. -/
def search_loop (rootdir : Nat → DirEntry) (max_i : Nat) (nm ex : List Nat)
    (i : Nat) : Option DirEntry :=
  if h : i < max_i then
    if (rootdir i).name.getD 0 0 = 0 ∨ (rootdir i).name.getD 0 0 = 229 then
      search_loop rootdir max_i nm ex (i + 1)
    else if (rootdir i).attributes = 15 then
      search_loop rootdir max_i nm ex (i + 1)
    else if is_file_name_equal (rootdir i) nm ex then
      some (rootdir i)
    else
      search_loop rootdir max_i nm ex (i + 1)
  else none
termination_by max_i - i
decreasing_by all_goals omega

/-- Source: `search_file` of file.c: parse the path, then scan
`root_entry_count` entries from index 0; `none` is the null pointer
(file not found). -/
def search_file (bpb : BPB) (rootdir : Nat → DirEntry) (path : Nat → Nat) :
    Option DirEntry :=
  match split_path path with
  | some (nm, ex) => search_loop rootdir bpb.root_entry_count nm ex 0
  | none => none

/-- Source: `load_file` of file.c.  `none` models the fatal halt inside
`read_raw_data`; otherwise the boolean result together with the final
destination memory. -/
def load_file (bpb : BPB) (img : Nat → Nat) (rootdir : Nat → DirEntry)
    (path : Nat → Nat) (addr : Nat) (mem : Nat → Nat) :
    Option (Bool × (Nat → Nat)) :=
  match search_file bpb rootdir path with
  | some entry =>
    match read_raw_data bpb img entry.cluster_index addr entry.file_size mem with
    | .ok r m => if r = entry.file_size then some (true, m) else some (false, m)
    | .halt _ => none
  | none => some (false, mem)

/-- Source: `init_fs` of file.c: halt (ASSERT(0)) unless the two bytes at
offsets 0x1FE and 0x1FF of the partition image are 0x55 and 0xAA.  The
function reads nothing else and has no other effect. -/
def init_fs (img : Nat → Nat) : Option Unit :=
  if readU8 img 510 ≠ 85 ∨ readU8 img 511 ≠ 170 then none else some ()

/-- Statement skeleton of the ASSERT macro of src/src/bootloader/debug.h,
with conditions pre-evaluated to booleans: enough structure to decide
termination of straight-line control flow. -/
inductive CStmt where
  | skip : CStmt
  | call_error_message : CStmt
  | loop_forever : CStmt
  | ite : Bool → CStmt → CStmt → CStmt
  | seq : CStmt → CStmt → CStmt

/-- Whether a statement skeleton runs to completion: `while(1){}` never
does, a sequence does iff both halves do. -/
def CStmt.terminates : CStmt → Bool
  | .skip => true
  | .call_error_message => true
  | .loop_forever => false
  | .ite c t e => if c then t.terminates else e.terminates
  | .seq a b => a.terminates && b.terminates

/-- The literal expansion of `ASSERT(TEST, MSG)` from
src/src/bootloader/debug.h:
`do { if (!(TEST)) error_message(...); while(1){} } while(0);`
The body of the `if` is only the call; the `while(1){}` follows it
unconditionally. -/
def assert_stmt (test : Bool) : CStmt :=
  .seq (.ite (!test) .call_error_message .skip) .loop_forever

/-- The expansion of the repaired ASSERT macro of src/bootloader/debug.h
(the other bootloader stage): `if (!(TEST)) { ERROR_MESSAGE(...) HALT }`,
where the halt is inside the braces. -/
def assert_fixed_stmt (test : Bool) : CStmt :=
  .ite (!test) (.seq .call_error_message .loop_forever) .skip

/-- The literal expansion of `VALIDATE_CLUSTER_INDEX(IDX)` from file.c:
`ASSERT((cluster_index >= 2 && cluster_index <= 65535), ...)`. -/
def validate_cluster_index_stmt (cluster_index : Nat) : CStmt :=
  assert_stmt (decide (2 ≤ cluster_index ∧ cluster_index ≤ 65535))

/-- Claim-side predicate: the path contains a slash before its
terminator. -/
def contains_slash (path : Nat → Nat) : Prop :=
  ∃ k, path k = 47 ∧ ∀ m, m < k → path m ≠ 0

/-- Claim-side predicate: the name portion before the first dot or
terminator exceeds 8 characters. -/
def name_too_long (path : Nat → Nat) : Prop :=
  ∀ m, m ≤ 8 → path m ≠ 46 ∧ path m ≠ 0

/-- Claim-side predicate: the extension after the first dot exceeds 3
characters (the name portion before the dot being well formed). -/
def ext_too_long (path : Nat → Nat) : Prop :=
  ∃ d, d ≤ 8 ∧ (∀ m, m < d → path m ≠ 46 ∧ path m ≠ 0) ∧ path d = 46 ∧
    ∀ j, j ≤ 3 → path (d + 1 + j) ≠ 0

/-- Claim-side predicate: the directory entry is live (neither empty nor
deleted), is not a long-filename fragment, and its name and extension
bytes equal the parsed ones. -/
def entry_matches (entry : DirEntry) (nm ex : List Nat) : Prop :=
  entry.name.getD 0 0 ≠ 0 ∧ entry.name.getD 0 0 ≠ 229 ∧
    entry.attributes ≠ 15 ∧ is_file_name_equal entry nm ex = true

/-- Wrapping `uint32_t` subtraction. -/
def u32_sub (a b : Nat) : Nat := (a % U32 + (U32 - b % U32)) % U32

/-- C10: in the ASSERT macro of src/src/bootloader/debug.h the infinite
loop `while(1){}` lies outside the `if` statement, so every expansion of
ASSERT diverges regardless of the asserted condition; consequently any
function whose body begins with VALIDATE_CLUSTER_INDEX followed by
anything (`get_cluster_value`, `get_data_offset`, `read_raw_data`) never
returns, even for a cluster index within [2, 65535]. -/
theorem C10_assert_always_diverges :
    (∀ t : Bool, (assert_stmt t).terminates = false) ∧
    (∀ (cluster_index : Nat) (rest : CStmt),
      (CStmt.seq (validate_cluster_index_stmt cluster_index) rest).terminates = false) := by
  constructor
  · intro t
    simp [assert_stmt, CStmt.terminates]
  · intro cluster_index rest
    simp [validate_cluster_index_stmt, assert_stmt, CStmt.terminates]

/-- C3 (code bug, evaluated at the failing input): cluster index 2 lies
within [2, 65535], yet the literal VALIDATE_CLUSTER_INDEX expansion from
src/src/bootloader/debug.h does not terminate, because the `while(1){}`
of ASSERT sits outside its `if`.  The repaired macro of
src/bootloader/debug.h terminates on the same test, witnessing the
intent the claim describes. -/
theorem C3_valid_index_evaluation :
    ((2:Nat) ≤ 2 ∧ (2:Nat) ≤ 65535) ∧
    (validate_cluster_index_stmt 2).terminates = false ∧
    (assert_fixed_stmt (decide ((2:Nat) ≤ 2 ∧ (2:Nat) ≤ 65535))).terminates = true :=
  ⟨⟨le_refl 2, by omega⟩, by decide, by decide⟩

/-- C4: `init_fs` halts exactly when the two bytes at offsets 0x1FE and
0x1FF of the partition image differ from 0x55 followed by 0xAA, and
returns normally (reading nothing else and changing nothing) when they
match. -/
theorem C4_init_fs_signature (img : Nat → Nat) :
    (init_fs img = none ↔ ¬(readU8 img 510 = 85 ∧ readU8 img 511 = 170)) ∧
    (init_fs img = some () ↔ (readU8 img 510 = 85 ∧ readU8 img 511 = 170)) := by
  by_cases h1 : readU8 img 510 = 85 <;> by_cases h2 : readU8 img 511 = 170 <;>
    simp [init_fs, h1, h2]

/-- The recursive loop of `read_raw_data` is exactly the iteration of its
loop body `read_step`: one unfolding of `read_loop` performs one
`read_step`. -/
theorem read_loop_eq_step (bpb : BPB) (img : Nat → Nat)
    (size cluster_index read_size data buffer : Nat) (mem : Nat → Nat) :
    read_loop bpb img size cluster_index read_size data buffer mem =
      match read_step bpb img size cluster_index read_size data buffer mem with
      | .halt m => .halt m
      | .done r m => .ok r m
      | .next ci rs d b m => read_loop bpb img size ci rs d b m := by
  rw [read_loop]
  unfold read_step
  by_cases h : read_size < size
  · rw [if_pos h, if_pos h]
    split
    · rename_i heq
      simp [heq]
    · rename_i v heq
      simp only [heq]
      by_cases hbad : v = 65527
      · simp [hbad]
      · by_cases heoc : 65528 ≤ v
        · simp [hbad, heoc]
        · simp [hbad, heoc]
  · rw [if_neg h, if_neg h]

/-- C9: whenever the loop of `read_raw_data` still has bytes to copy and
the FAT value of the current cluster is the bad-cluster marker 0xFFF7,
the loop halts fatally at once — it returns no byte count at all — with
the destination memory untouched from that point on. -/
theorem C9_bad_cluster_halts (bpb : BPB) (img : Nat → Nat)
    (size cluster_index read_size data buffer : Nat) (mem : Nat → Nat)
    (h : read_size < size)
    (hv : get_cluster_value bpb img cluster_index = some 65527) :
    read_loop bpb img size cluster_index read_size data buffer mem = .halt mem := by
  rw [read_loop_eq_step]
  have hs : read_step bpb img size cluster_index read_size data buffer mem = .halt mem := by
    unfold read_step
    rw [if_pos h, hv]
    simp
  rw [hs]

/-- Witness for C9 at a concrete filesystem: cluster 2 is marked bad
(FAT entry 0xFFF7), one byte is requested, and the loop halts. -/
theorem C9_bad_cluster_halts_witness :
    (0:Nat) < 1 ∧
    get_cluster_value ⟨2, 1, 1, 1, 1, 0⟩
      (fun a => if a = 6 then 247 else if a = 7 then 255 else 0) 2 = some 65527 ∧
    read_loop ⟨2, 1, 1, 1, 1, 0⟩
      (fun a => if a = 6 then 247 else if a = 7 then 255 else 0) 1 2 0 4 100
      (fun _ => 0) = .halt (fun _ => 0) := by
  refine ⟨by omega, ?_, ?_⟩
  · simp [get_cluster_value, get_fat_table, readU16, readU8, U32]
  · exact C9_bad_cluster_halts ⟨2, 1, 1, 1, 1, 0⟩ _ 1 2 0 4 100 _ (by omega)
      (by simp [get_cluster_value, get_fat_table, readU16, readU8, U32])

/-- C1 as stated is false: at a filesystem whose FAT names cluster 5 as
the successor of cluster 2, the loop body of `read_raw_data` advances the
cluster index to 3 (`++cluster_index`), not to the cluster named by the
FAT value. -/
theorem C1_chain_following_cex :
    ¬ (∀ (bpb : BPB) (img : Nat → Nat) (size cluster_index read_size data buffer : Nat)
        (mem : Nat → Nat) (v : Nat),
        read_size < size →
        get_cluster_value bpb img cluster_index = some v →
        v ≠ 65527 → ¬ 65528 ≤ v →
        (read_step bpb img size cluster_index read_size data buffer mem).next_index = some v) := by
  intro hclaim
  have h := hclaim ⟨2, 1, 1, 1, 1, 0⟩ (fun a => if a = 6 then 5 else 0) 4 2 0 4 100
    (fun _ => 0) 5 (by omega)
    (by simp [get_cluster_value, get_fat_table, readU16, readU8, U32])
    (by omega) (by omega)
  simp [read_step, get_cluster_value, get_fat_table, get_cluster_size, readU16,
    readU8, U32, StepResult.next_index] at h

/-- C1 amended: whenever the FAT value of the current cluster is neither
the bad-cluster marker nor an end-of-chain marker, the loop of
`read_raw_data` copies one full cluster from the current data offset and
advances the cluster index by exactly one (`++cluster_index`) — the
consecutive cluster — regardless of the cluster the FAT value names. -/
theorem C1_consecutive_advance (bpb : BPB) (img : Nat → Nat)
    (size cluster_index read_size data buffer : Nat) (mem : Nat → Nat) (v : Nat)
    (h : read_size < size)
    (hv : get_cluster_value bpb img cluster_index = some v)
    (hbad : v ≠ 65527) (heoc : ¬ 65528 ≤ v) :
    read_step bpb img size cluster_index read_size data buffer mem =
      .next ((cluster_index + 1) % U32) ((read_size + get_cluster_size bpb) % U32)
        (data + get_cluster_size bpb) (buffer + get_cluster_size bpb)
        (memmove_from_img mem buffer img data (get_cluster_size bpb)) := by
  unfold read_step
  rw [if_pos h, hv]
  simp [hbad, heoc]

/-- Witness for C1 at the counterexample's filesystem: the step continues
at cluster index 3 with one full cluster (2 bytes) copied. -/
theorem C1_consecutive_advance_witness :
    (0:Nat) < 4 ∧
    read_step ⟨2, 1, 1, 1, 1, 0⟩ (fun a => if a = 6 then 5 else 0) 4 2 0 4 100
      (fun _ => 0) =
      .next 3 2 6 102
        (memmove_from_img (fun _ => 0) 100 (fun a => if a = 6 then 5 else 0) 4 2) := by
  refine ⟨by omega, ?_⟩
  have h := C1_consecutive_advance ⟨2, 1, 1, 1, 1, 0⟩ (fun a => if a = 6 then 5 else 0)
    4 2 0 4 100 (fun _ => 0) 5 (by omega)
    (by simp [get_cluster_value, get_fat_table, readU16, readU8, U32])
    (by omega) (by omega)
  simpa [get_cluster_size, U32] using h

/-- Wrapping subtraction undoes a wrapped addition of `c < U32`. -/
theorem u32_sub_add_cancel (A c : Nat) (hc : c < U32) :
    u32_sub ((A + c) % U32) (A % U32) = c := by
  unfold u32_sub
  simp only [U32] at *
  have hr : A % 4294967296 < 4294967296 := Nat.mod_lt _ (by omega)
  have hac : (A + c) % 4294967296 < 4294967296 := Nat.mod_lt _ (by omega)
  rw [Nat.mod_eq_of_lt hac, Nat.mod_eq_of_lt hr, Nat.mod_add_mod]
  have hd := Nat.div_add_mod A 4294967296
  have he : A + c + (4294967296 - A % 4294967296) =
      4294967296 * (A / 4294967296 + 1) + c := by omega
  rw [he, Nat.mul_add_mod, Nat.mod_eq_of_lt hc]

/-- C8 as stated is false at the upper end of the valid range: for
`i = 65535` the term `data_offset(bpb, i+1)` violates the precondition of
`get_data_offset` (cluster 65536 is out of range), so the function halts
there instead of returning a value. -/
theorem C8_claim_cex :
    ¬ (∀ (bpb : BPB) (i : Nat), 2 ≤ i → i ≤ 65535 →
        ∃ a b, get_data_offset bpb (i + 1) = some a ∧
          get_data_offset bpb i = some b ∧
          u32_sub a b = get_cluster_size bpb) := by
  intro hclaim
  obtain ⟨a, b, ha, hb, hs⟩ :=
    hclaim ⟨512, 1, 1, 2, 32, 512⟩ 65535 (by omega) (le_refl _)
  simp [get_data_offset] at ha

/-- C8 amended: for every BPB and every cluster index `i` with
`2 ≤ i` and `i + 1 ≤ 65535` (so that both indices are valid),
`data_offset(bpb, i+1) - data_offset(bpb, i)` equals `cluster_size(bpb)`
in wrapping 32-bit arithmetic. -/
theorem C8_data_offset_diff (bpb : BPB) (i : Nat) (h2 : 2 ≤ i)
    (h3 : i + 1 ≤ 65535) :
    ∃ a b, get_data_offset bpb (i + 1) = some a ∧
      get_data_offset bpb i = some b ∧
      u32_sub a b = get_cluster_size bpb := by
  unfold get_data_offset
  rw [if_pos ⟨by omega, h3⟩, if_pos ⟨h2, by omega⟩]
  refine ⟨_, _, rfl, rfl, ?_⟩
  have hcs : get_cluster_size bpb < U32 := by
    unfold get_cluster_size
    exact Nat.mod_lt _ (by norm_num [U32])
  have h1 : i + 1 - 2 = (i - 2) + 1 := by omega
  rw [h1, Nat.succ_mul]
  simp only [Nat.add_mod_mod, Nat.mod_add_mod, ← Nat.add_assoc]
  rw [Nat.add_assoc, Nat.mod_add_mod, ← Nat.add_assoc]
  exact u32_sub_add_cancel _ _ hcs

/-- Witness for C8 at a concrete BPB and the lowest valid index pair. -/
theorem C8_data_offset_diff_witness :
    (2:Nat) ≤ 2 ∧ (2:Nat) + 1 ≤ 65535 ∧
    (∃ a b, get_data_offset ⟨512, 1, 1, 2, 32, 512⟩ (2 + 1) = some a ∧
      get_data_offset ⟨512, 1, 1, 2, 32, 512⟩ 2 = some b ∧
      u32_sub a b = get_cluster_size ⟨512, 1, 1, 2, 32, 512⟩) :=
  ⟨by omega, by omega,
    C8_data_offset_diff ⟨512, 1, 1, 2, 32, 512⟩ 2 (by omega) (by omega)⟩

/-- C5: `load_file` returns true exactly when the directory scan finds an
entry and `read_raw_data` reports exactly `file_size` bytes copied; it
returns false exactly when no entry is found (destination untouched) or
the reported count differs from `file_size`. -/
theorem C5_load_file_iff (bpb : BPB) (img : Nat → Nat)
    (rootdir : Nat → DirEntry) (path : Nat → Nat) (addr : Nat)
    (mem : Nat → Nat) :
    (∀ m, load_file bpb img rootdir path addr mem = some (true, m) ↔
      ∃ e, search_file bpb rootdir path = some e ∧
        read_raw_data bpb img e.cluster_index addr e.file_size mem =
          .ok e.file_size m) ∧
    (∀ m, load_file bpb img rootdir path addr mem = some (false, m) ↔
      ((search_file bpb rootdir path = none ∧ m = mem) ∨
        ∃ e n, search_file bpb rootdir path = some e ∧
          read_raw_data bpb img e.cluster_index addr e.file_size mem = .ok n m ∧
          n ≠ e.file_size)) := by
  unfold load_file
  cases hs : search_file bpb rootdir path with
  | none =>
    constructor <;> intro m <;> simp [hs] <;> tauto
  | some e =>
    cases hr : read_raw_data bpb img e.cluster_index addr e.file_size mem with
    | halt m' =>
      constructor <;> intro m <;> simp [hs, hr]
    | ok n m' =>
      by_cases hn : n = e.file_size
      · subst hn
        constructor <;> intro m <;> simp [hs, hr] <;> tauto
      · constructor <;> intro m <;> simp [hs, hr, hn] <;> tauto

/-- Frame invariant of the loop of `read_raw_data`: provided the 32-bit
byte counter cannot wrap (`size + cluster_size ≤ 2^32`), the loop only
writes below `buffer + (size - read_size) + cluster_size`, and any
reported byte count stays below `size + cluster_size`. -/
theorem read_loop_frame (bpb : BPB) (img : Nat → Nat) (size : Nat)
    (hs : size < U32) (hc : size + get_cluster_size bpb ≤ U32) :
    ∀ (ci rs data buf : Nat) (mem : Nat → Nat),
      rs ≤ size + get_cluster_size bpb →
      ((∀ a, (a < buf ∨ buf + ((size - rs) + get_cluster_size bpb) ≤ a ∨ size ≤ rs) →
          (read_loop bpb img size ci rs data buf mem).memOf a = mem a) ∧
        (∀ n m, read_loop bpb img size ci rs data buf mem = .ok n m →
          n ≤ size + get_cluster_size bpb)) := by
  intro ci rs data buf mem
  refine read_loop.induct bpb img size
    (fun ci rs data buf mem =>
      rs ≤ size + get_cluster_size bpb →
      ((∀ a, (a < buf ∨ buf + ((size - rs) + get_cluster_size bpb) ≤ a ∨ size ≤ rs) →
          (read_loop bpb img size ci rs data buf mem).memOf a = mem a) ∧
        (∀ n m, read_loop bpb img size ci rs data buf mem = .ok n m →
          n ≤ size + get_cluster_size bpb)))
    ?_ ?_ ?_ ?_ ?_ ci rs data buf mem
  · intro ci rs d b m hlt hnone hrs
    have hl : read_loop bpb img size ci rs d b m = .halt m := by
      rw [read_loop_eq_step]
      have hstep : read_step bpb img size ci rs d b m = .halt m := by
        unfold read_step
        rw [if_pos hlt, hnone]
      rw [hstep]
    refine ⟨fun a ha => by rw [hl]; rfl, fun n m' heq => ?_⟩
    rw [hl] at heq
    exact absurd heq (by simp)
  · intro ci rs d b m hlt hbadv hrs
    have hl : read_loop bpb img size ci rs d b m = .halt m := by
      rw [read_loop_eq_step]
      have hstep : read_step bpb img size ci rs d b m = .halt m := by
        unfold read_step
        rw [if_pos hlt, hbadv]
        simp
      rw [hstep]
    refine ⟨fun a ha => by rw [hl]; rfl, fun n m' heq => ?_⟩
    rw [hl] at heq
    exact absurd heq (by simp)
  · intro ci rs d b m hlt v hv hbad heoc hrs
    have hsz : (rs + (size - rs)) % U32 = size := by
      have h1 : rs + (size - rs) = size := by omega
      rw [h1, Nat.mod_eq_of_lt hs]
    have hl : read_loop bpb img size ci rs d b m =
        .ok size (memmove_from_img m b img d (size - rs)) := by
      rw [read_loop_eq_step]
      have hstep : read_step bpb img size ci rs d b m =
          .done size (memmove_from_img m b img d (size - rs)) := by
        unfold read_step
        rw [if_pos hlt, hv]
        simp [hbad, heoc, hsz]
      rw [hstep]
    refine ⟨fun a ha => ?_, fun n m' heq => ?_⟩
    · rw [hl]
      simp only [RResult.memOf, memmove_from_img]
      rw [if_neg (by omega)]
    · rw [hl] at heq
      have : n = size := by
        injection heq with h1 h2
        omega
      omega
  · intro ci rs d b m hlt v hv hbad heoc ih hrs
    have hmod : (rs + get_cluster_size bpb) % U32 = rs + get_cluster_size bpb :=
      Nat.mod_eq_of_lt (by omega)
    rw [hmod] at ih
    have hl : read_loop bpb img size ci rs d b m =
        read_loop bpb img size ((ci + 1) % U32) (rs + get_cluster_size bpb)
          (d + get_cluster_size bpb) (b + get_cluster_size bpb)
          (memmove_from_img m b img d (get_cluster_size bpb)) := by
      rw [read_loop_eq_step]
      have hstep : read_step bpb img size ci rs d b m =
          .next ((ci + 1) % U32) ((rs + get_cluster_size bpb) % U32)
            (d + get_cluster_size bpb) (b + get_cluster_size bpb)
            (memmove_from_img m b img d (get_cluster_size bpb)) := by
        unfold read_step
        rw [if_pos hlt, hv]
        simp [hbad, heoc]
      rw [hstep, hmod]
    obtain ⟨ihf, ihc⟩ := ih (by omega)
    refine ⟨fun a ha => ?_, fun n m' heq => ?_⟩
    · rw [hl]
      have hcond : a < b + get_cluster_size bpb ∨
          b + get_cluster_size bpb +
            ((size - (rs + get_cluster_size bpb)) + get_cluster_size bpb) ≤ a ∨
          size ≤ rs + get_cluster_size bpb := by omega
      rw [ihf a hcond]
      simp only [memmove_from_img]
      rw [if_neg (by omega)]
    · rw [hl] at heq
      exact ihc n m' heq
  · intro ci rs d b m hlt hrs
    have hl : read_loop bpb img size ci rs d b m = .ok rs m := by
      rw [read_loop_eq_step]
      have hstep : read_step bpb img size ci rs d b m = .done rs m := by
        unfold read_step
        rw [if_neg hlt]
      rw [hstep]
    refine ⟨fun a ha => by rw [hl]; rfl, fun n m' heq => ?_⟩
    rw [hl] at heq
    injection heq with h1 h2
    omega

/-- C2 as stated is false: with a 2-byte cluster whose FAT entry is not an
end-of-chain marker and a request of a single byte, `read_raw_data` copies
a full cluster — it reports 2 bytes for a 1-byte request, writing past
`destination + size`. -/
theorem C2_frame_cex :
    ¬ (∀ (bpb : BPB) (img : Nat → Nat) (cluster_index buffer size : Nat)
        (mem : Nat → Nat),
        (∀ a, (a < buffer ∨ buffer + size ≤ a) →
          (read_raw_data bpb img cluster_index buffer size mem).memOf a = mem a) ∧
        (∀ n m, read_raw_data bpb img cluster_index buffer size mem = .ok n m →
          n ≤ size)) := by
  intro hclaim
  obtain ⟨-, hcount⟩ := hclaim ⟨2, 1, 1, 1, 1, 0⟩ (fun a => if a = 6 then 3 else 0)
    2 100 1 (fun _ => 0)
  have hev : read_raw_data ⟨2, 1, 1, 1, 1, 0⟩ (fun a => if a = 6 then 3 else 0)
      2 100 1 (fun _ => 0) =
      .ok 2 (memmove_from_img (fun _ => 0) 100 (fun a => if a = 6 then 3 else 0) 4 2) := by
    simp [read_raw_data, read_loop, get_data_offset, get_cluster_value,
      get_cluster_size, get_fat_table, readU16, readU8, U32, sizeof_DirEntry]
  exact absurd (hcount _ _ hev) (by omega)

/-- C2 amended: provided the 32-bit byte counter cannot wrap
(`size + cluster_size ≤ 2^32`), `read_raw_data` writes only inside
`[destination, destination + size + cluster_size)` — it may overrun the
requested size by less than one full cluster, no further — and the byte
count it reports is at most `size + cluster_size`. -/
theorem C2_frame_amended (bpb : BPB) (img : Nat → Nat)
    (cluster_index buffer size : Nat) (mem : Nat → Nat)
    (hs : size < U32) (hc : size + get_cluster_size bpb ≤ U32) :
    (∀ a, (a < buffer ∨ buffer + size + get_cluster_size bpb ≤ a) →
      (read_raw_data bpb img cluster_index buffer size mem).memOf a = mem a) ∧
    (∀ n m, read_raw_data bpb img cluster_index buffer size mem = .ok n m →
      n ≤ size + get_cluster_size bpb) := by
  unfold read_raw_data
  by_cases hv : 2 ≤ cluster_index ∧ cluster_index ≤ 65535
  · rw [if_pos hv]
    cases hdo : get_data_offset bpb cluster_index with
    | none =>
      unfold get_data_offset at hdo
      rw [if_pos hv] at hdo
      exact absurd hdo (by simp)
    | some d =>
      obtain ⟨hf, hcnt⟩ := read_loop_frame bpb img size hs hc cluster_index 0 d buffer mem
        (by omega)
      refine ⟨fun a ha => ?_, fun n m heq => hcnt n m heq⟩
      exact hf a (by omega)
  · rw [if_neg hv]
    exact ⟨fun a ha => rfl, fun n m heq => absurd heq (by simp)⟩

/-- Witness for C2 at the counterexample's filesystem: the one-byte read
of a 2-byte cluster stays within the cluster-rounded window. -/
theorem C2_frame_amended_witness :
    (1:Nat) < U32 ∧ (1:Nat) + get_cluster_size ⟨2, 1, 1, 1, 1, 0⟩ ≤ U32 ∧
    ((∀ a, (a < 100 ∨ 100 + 1 + get_cluster_size ⟨2, 1, 1, 1, 1, 0⟩ ≤ a) →
      (read_raw_data ⟨2, 1, 1, 1, 1, 0⟩ (fun a => if a = 6 then 3 else 0)
        2 100 1 (fun _ => 0)).memOf a = 0) ∧
    (∀ n m, read_raw_data ⟨2, 1, 1, 1, 1, 0⟩ (fun a => if a = 6 then 3 else 0)
        2 100 1 (fun _ => 0) = .ok n m →
      n ≤ 1 + get_cluster_size ⟨2, 1, 1, 1, 1, 0⟩)) :=
  ⟨by norm_num [U32], by norm_num [U32, get_cluster_size],
    C2_frame_amended ⟨2, 1, 1, 1, 1, 0⟩ (fun a => if a = 6 then 3 else 0) 2 100 1
      (fun _ => 0) (by norm_num [U32]) (by norm_num [U32, get_cluster_size])⟩

/-- Inversion of the name loop of `split_path`: on success the consumed
prefix contains no dot, no terminator and no slash, and the loop stopped
at index 8, at a dot, or at the terminator. -/
theorem split_name_loop_some (path : Nat → Nat) :
    ∀ i nm i' nm', i ≤ 8 → split_name_loop path i nm = some (i', nm') →
      i ≤ i' ∧ i' ≤ 8 ∧
      (∀ m, i ≤ m → m < i' → path m ≠ 46 ∧ path m ≠ 0 ∧ path m ≠ 47) ∧
      (i' = 8 ∨ path i' = 46 ∨ path i' = 0) := by
  intro i nm
  refine split_name_loop.induct path
    (fun i nm => ∀ i' nm', i ≤ 8 → split_name_loop path i nm = some (i', nm') →
      i ≤ i' ∧ i' ≤ 8 ∧
      (∀ m, i ≤ m → m < i' → path m ≠ 46 ∧ path m ≠ 0 ∧ path m ≠ 47) ∧
      (i' = 8 ∨ path i' = 46 ∨ path i' = 0)) ?_ ?_ ?_ i nm
  · intro i nm hcond hslash i' nm' hle heq
    rw [split_name_loop, dif_pos hcond, if_pos hslash] at heq
    cases heq
  · intro i nm hcond hslash ih i' nm' hle heq
    rw [split_name_loop, dif_pos hcond, if_neg hslash] at heq
    obtain ⟨h1, h2, h3, h4⟩ := ih i' nm' (by omega) heq
    refine ⟨by omega, h2, fun m hm1 hm2 => ?_, h4⟩
    by_cases hmi : m = i
    · subst hmi
      exact ⟨hcond.2.1, hcond.2.2, hslash⟩
    · exact h3 m (by omega) hm2
  · intro i nm hcond i' nm' hle heq
    rw [split_name_loop, dif_neg hcond] at heq
    simp only [Option.some.injEq, Prod.mk.injEq] at heq
    obtain ⟨rfl, rfl⟩ := heq
    refine ⟨le_refl i, hle, fun m hm1 hm2 => absurd hm2 (by omega), ?_⟩
    rcases Nat.lt_or_ge i 8 with h8 | h8
    · by_cases hd : path i = 46
      · exact Or.inr (Or.inl hd)
      · have h0 : path i = 0 := by tauto
        exact Or.inr (Or.inr h0)
    · exact Or.inl (by omega)

/-- Inversion of the extension loop of `split_path`: on success the
consumed characters contain no terminator and no slash. -/
theorem split_ext_loop_some (path : Nat → Nat) :
    ∀ i j ex i' ex', split_ext_loop path i j ex = some (i', ex') →
      i ≤ i' ∧ (∀ m, i ≤ m → m < i' → path m ≠ 0 ∧ path m ≠ 47) := by
  intro i j ex
  refine split_ext_loop.induct path
    (fun i j ex => ∀ i' ex', split_ext_loop path i j ex = some (i', ex') →
      i ≤ i' ∧ (∀ m, i ≤ m → m < i' → path m ≠ 0 ∧ path m ≠ 47)) ?_ ?_ ?_ i j ex
  · intro i j ex hcond hslash i' ex' heq
    rw [split_ext_loop, dif_pos hcond, if_pos hslash] at heq
    cases heq
  · intro i j ex hcond hslash ih i' ex' heq
    rw [split_ext_loop, dif_pos hcond, if_neg hslash] at heq
    obtain ⟨h1, h2⟩ := ih i' ex' heq
    refine ⟨by omega, fun m hm1 hm2 => ?_⟩
    by_cases hmi : m = i
    · subst hmi
      exact ⟨hcond.2, hslash⟩
    · exact h2 m (by omega) hm2
  · intro i j ex hcond i' ex' heq
    rw [split_ext_loop, dif_neg hcond] at heq
    simp only [Option.some.injEq, Prod.mk.injEq] at heq
    obtain ⟨rfl, rfl⟩ := heq
    exact ⟨le_refl i, fun m hm1 hm2 => absurd hm2 (by omega)⟩

/-- When the 3 - j characters ahead all exist (no terminator among them),
the extension loop either fails on a slash or consumes exactly them. -/
theorem split_ext_loop_full (path : Nat → Nat) :
    ∀ i j ex, j ≤ 3 → (∀ m, i ≤ m → m < i + (3 - j) → path m ≠ 0) →
      split_ext_loop path i j ex = none ∨
      ∃ ex', split_ext_loop path i j ex = some (i + (3 - j), ex') := by
  intro i j ex
  refine split_ext_loop.induct path
    (fun i j ex => j ≤ 3 → (∀ m, i ≤ m → m < i + (3 - j) → path m ≠ 0) →
      split_ext_loop path i j ex = none ∨
      ∃ ex', split_ext_loop path i j ex = some (i + (3 - j), ex')) ?_ ?_ ?_ i j ex
  · intro i j ex hcond hslash hj hall
    rw [split_ext_loop, dif_pos hcond, if_pos hslash]
    exact Or.inl rfl
  · intro i j ex hcond hslash ih hj hall
    rw [split_ext_loop, dif_pos hcond, if_neg hslash]
    have hrec := ih (by omega) (fun m hm1 hm2 => hall m (by omega) (by omega))
    rcases hrec with h | ⟨ex', h⟩
    · exact Or.inl h
    · refine Or.inr ⟨ex', ?_⟩
      rw [h]
      have he : i + 1 + (3 - (j + 1)) = i + (3 - j) := by omega
      rw [he]
  · intro i j ex hcond hj hall
    rcases Nat.lt_or_ge j 3 with h3 | h3
    · have h0 : path i = 0 := by tauto
      have := hall i (le_refl i) (by omega)
      exact absurd h0 this
    · have hj3 : 3 - j = 0 := by omega
      rw [split_ext_loop, dif_neg hcond, hj3]
      exact Or.inr ⟨ex, rfl⟩

/-- After a successful name loop, `split_path` reduces to its dot /
extension / terminator phase. -/
theorem split_path_eq_after_name (path : Nat → Nat) (i1 : Nat) (nm1 : List Nat)
    (h : split_name_loop path 0 (List.replicate 8 32) = some (i1, nm1)) :
    split_path path =
      (match (if path i1 = 46 then split_ext_loop path (i1 + 1) 0 (List.replicate 3 32)
              else some (i1, List.replicate 3 32)) with
        | none => none
        | some (i2, ex) => if path i2 ≠ 0 then none else some (nm1, ex)) := by
  unfold split_path
  rw [h]

/-- Iota reduction of the terminator-check phase of `split_path` on a
successful extension result. -/
theorem split_path_tail (path : Nat → Nat) (nm1 : List Nat) (i2 : Nat)
    (ex2 : List Nat) :
    (match (some (i2, ex2) : Option (Nat × List Nat)) with
      | none => none
      | some (i2, ex) => if path i2 ≠ 0 then none else some (nm1, ex)) =
      (if path i2 ≠ 0 then none else some (nm1, ex2)) := rfl

/-- On success, `split_path` consumed everything up to a terminator, and
nothing consumed is a terminator or a slash. -/
theorem split_path_some (path : Nat → Nat) (nm ex : List Nat)
    (h : split_path path = some (nm, ex)) :
    ∃ F, path F = 0 ∧ ∀ m, m < F → path m ≠ 0 ∧ path m ≠ 47 := by
  cases hn : split_name_loop path 0 (List.replicate 8 32) with
  | none =>
    unfold split_path at h
    rw [hn] at h
    cases h
  | some p =>
    obtain ⟨i1, nm1⟩ := p
    rw [split_path_eq_after_name path i1 nm1 hn] at h
    obtain ⟨h01, h18, hreg, hexit⟩ := split_name_loop_some path 0 _ i1 nm1 (by omega) hn
    by_cases hdot : path i1 = 46
    · rw [if_pos hdot] at h
      cases he : split_ext_loop path (i1 + 1) 0 (List.replicate 3 32) with
      | none =>
        rw [he] at h
        cases h
      | some q =>
        obtain ⟨i2, ex2⟩ := q
        rw [he, split_path_tail] at h
        by_cases hz : path i2 = 0
        · obtain ⟨hle2, hreg2⟩ := split_ext_loop_some path (i1 + 1) 0 _ i2 ex2 he
          refine ⟨i2, hz, fun m hm => ?_⟩
          by_cases hm1 : m < i1
          · have hr := hreg m (by omega) hm1
            exact ⟨hr.2.1, hr.2.2⟩
          · by_cases hmi : m = i1
            · subst hmi
              rw [hdot]
              exact ⟨by omega, by omega⟩
            · exact hreg2 m (by omega) hm
        · rw [if_pos hz] at h
          cases h
    · rw [if_neg hdot, split_path_tail] at h
      by_cases hz : path i1 = 0
      · refine ⟨i1, hz, fun m hm => ?_⟩
        have hr := hreg m (by omega) hm
        exact ⟨hr.2.1, hr.2.2⟩
      · rw [if_pos hz] at h
        cases h

/-- A path with a slash before its terminator, a name portion longer than
8 characters, or an extension longer than 3 characters is rejected by
`split_path`. -/
theorem split_path_none_of_bad (path : Nat → Nat)
    (hbad : contains_slash path ∨ name_too_long path ∨ ext_too_long path) :
    split_path path = none := by
  rcases hbad with hsl | hnl | hel
  · cases hsp : split_path path with
    | none => rfl
    | some p =>
      exfalso
      obtain ⟨nm, ex⟩ := p
      obtain ⟨F, hF0, hFreg⟩ := split_path_some path nm ex hsp
      obtain ⟨k, hk47, hkpre⟩ := hsl
      rcases Nat.lt_trichotomy k F with h | h | h
      · exact (hFreg k h).2 hk47
      · subst h
        rw [hF0] at hk47
        omega
      · exact hkpre F h hF0
  · cases hn : split_name_loop path 0 (List.replicate 8 32) with
    | none =>
      unfold split_path
      rw [hn]
    | some p =>
      obtain ⟨i1, nm1⟩ := p
      obtain ⟨-, h18, -, hexit⟩ := split_name_loop_some path 0 _ i1 nm1 (by omega) hn
      have hi8 : i1 = 8 := by
        rcases hexit with h | h | h
        · exact h
        · exact absurd h (hnl i1 h18).1
        · exact absurd h (hnl i1 h18).2
      subst hi8
      rw [split_path_eq_after_name path 8 nm1 hn, if_neg (hnl 8 (le_refl 8)).1,
        split_path_tail, if_pos (hnl 8 (le_refl 8)).2]
  · obtain ⟨d, hd8, hpre, hdot, hext⟩ := hel
    cases hn : split_name_loop path 0 (List.replicate 8 32) with
    | none =>
      unfold split_path
      rw [hn]
    | some p =>
      obtain ⟨i1, nm1⟩ := p
      obtain ⟨-, h18, hreg, hexit⟩ := split_name_loop_some path 0 _ i1 nm1 (by omega) hn
      have hi1d : i1 = d := by
        rcases Nat.lt_trichotomy i1 d with h | h | h
        · exfalso
          rcases hexit with h8 | hd46 | hd0
          · omega
          · exact (hpre i1 h).1 hd46
          · exact (hpre i1 h).2 hd0
        · exact h
        · exact absurd hdot (hreg d (by omega) h).1
      subst hi1d
      rw [split_path_eq_after_name path i1 nm1 hn, if_pos hdot]
      have hfull := split_ext_loop_full path (i1 + 1) 0 (List.replicate 3 32) (by omega)
        (fun m hm1 hm2 => by
          have h3 : m = i1 + 1 + (m - (i1 + 1)) := by omega
          rw [h3]
          exact hext (m - (i1 + 1)) (by omega))
      rcases hfull with h | ⟨ex', h⟩
      · rw [h]
      · rw [h, split_path_tail, if_pos (hext 3 (le_refl 3))]

/-- C6: for every path containing a slash anywhere before its terminator,
or whose name portion before the first dot or terminator exceeds 8
characters, or whose extension exceeds 3 characters, `load_file` returns
false — a recoverable not-found result, not a halt — with the destination
memory untouched, whatever the directory contains (it is never
scanned). -/
theorem C6_bad_path_not_found (path : Nat → Nat)
    (hbad : contains_slash path ∨ name_too_long path ∨ ext_too_long path) :
    ∀ (bpb : BPB) (img : Nat → Nat) (rootdir : Nat → DirEntry) (addr : Nat)
      (mem : Nat → Nat),
      load_file bpb img rootdir path addr mem = some (false, mem) := by
  have hsp : split_path path = none := split_path_none_of_bad path hbad
  intro bpb img rootdir addr mem
  have hsf : search_file bpb rootdir path = none := by
    unfold search_file
    rw [hsp]
  unfold load_file
  rw [hsf]

/-- Witness for C6 at the path "/" (a single slash), an arbitrary
filesystem and an arbitrary destination. -/
theorem C6_bad_path_not_found_witness :
    (contains_slash (fun n => if n = 0 then 47 else 0) ∨
      name_too_long (fun n => if n = 0 then 47 else 0) ∨
      ext_too_long (fun n => if n = 0 then 47 else 0)) ∧
    load_file ⟨512, 1, 1, 2, 32, 512⟩ (fun _ => 0)
      (fun _ => ⟨List.replicate 8 32, List.replicate 3 32, 0, 2, 0⟩)
      (fun n => if n = 0 then 47 else 0) 0 (fun _ => 0) =
      some (false, fun _ => 0) := by
  have hsl : contains_slash (fun n => if n = 0 then 47 else 0) :=
    ⟨0, by simp, fun m hm => absurd hm (Nat.not_lt_zero m)⟩
  exact ⟨Or.inl hsl,
    C6_bad_path_not_found (fun n => if n = 0 then 47 else 0) (Or.inl hsl)
      ⟨512, 1, 1, 2, 32, 512⟩ (fun _ => 0)
      (fun _ => ⟨List.replicate 8 32, List.replicate 3 32, 0, 2, 0⟩) 0 (fun _ => 0)⟩

/-- Shifting a first-match characterization across one non-matching
index. -/
theorem first_match_shift (P : Nat → Prop) (max_i x : Nat) (hx : x < max_i)
    (hnm : ¬ P x) :
    (∀ k, ((x + 1 ≤ k ∧ k < max_i ∧ P k ∧ ∀ j, x + 1 ≤ j → j < k → ¬ P j) ↔
      (x ≤ k ∧ k < max_i ∧ P k ∧ ∀ j, x ≤ j → j < k → ¬ P j))) ∧
    ((∀ k, x + 1 ≤ k → k < max_i → ¬ P k) ↔
      (∀ k, x ≤ k → k < max_i → ¬ P k)) := by
  constructor
  · intro k
    constructor
    · rintro ⟨h1, h2, h3, h4⟩
      refine ⟨by omega, h2, h3, fun j hj1 hj2 => ?_⟩
      by_cases hjx : j = x
      · subst hjx
        exact hnm
      · exact h4 j (by omega) hj2
    · rintro ⟨h1, h2, h3, h4⟩
      have hkx : k ≠ x := fun he => hnm (he ▸ h3)
      exact ⟨by omega, h2, h3, fun j hj1 hj2 => h4 j (by omega) hj2⟩
  · constructor
    · intro hall k hk1 hk2
      by_cases hkx : k = x
      · subst hkx
        exact hnm
      · exact hall k (by omega) hk2
    · intro hall k hk1 hk2
      exact hall k (by omega) hk2

/-- One skipped entry preserves the first-match characterization of the
directory scan. -/
theorem search_loop_spec_step (rootdir : Nat → DirEntry) (max_i : Nat)
    (nm ex : List Nat) (x : Nat) (hx : x < max_i)
    (hnm : ¬ entry_matches (rootdir x) nm ex)
    (hl : search_loop rootdir max_i nm ex x = search_loop rootdir max_i nm ex (x + 1))
    (ih : (∀ e, search_loop rootdir max_i nm ex (x + 1) = some e ↔
        ∃ k, x + 1 ≤ k ∧ k < max_i ∧ entry_matches (rootdir k) nm ex ∧
          (∀ j, x + 1 ≤ j → j < k → ¬ entry_matches (rootdir j) nm ex) ∧
          rootdir k = e) ∧
      (search_loop rootdir max_i nm ex (x + 1) = none ↔
        ∀ k, x + 1 ≤ k → k < max_i → ¬ entry_matches (rootdir k) nm ex)) :
    (∀ e, search_loop rootdir max_i nm ex x = some e ↔
      ∃ k, x ≤ k ∧ k < max_i ∧ entry_matches (rootdir k) nm ex ∧
        (∀ j, x ≤ j → j < k → ¬ entry_matches (rootdir j) nm ex) ∧
        rootdir k = e) ∧
    (search_loop rootdir max_i nm ex x = none ↔
      ∀ k, x ≤ k → k < max_i → ¬ entry_matches (rootdir k) nm ex) := by
  obtain ⟨ih1, ih2⟩ := ih
  obtain ⟨hs1, hs2⟩ :=
    first_match_shift (fun k => entry_matches (rootdir k) nm ex) max_i x hx hnm
  constructor
  · intro e
    rw [hl, ih1 e]
    constructor
    · rintro ⟨k, h1, h2, h3, h4, h5⟩
      obtain ⟨g1, g2, g3, g4⟩ := (hs1 k).mp ⟨h1, h2, h3, h4⟩
      exact ⟨k, g1, g2, g3, g4, h5⟩
    · rintro ⟨k, h1, h2, h3, h4, h5⟩
      obtain ⟨g1, g2, g3, g4⟩ := (hs1 k).mpr ⟨h1, h2, h3, h4⟩
      exact ⟨k, g1, g2, g3, g4, h5⟩
  · rw [hl, ih2]
    exact hs2

/-- The directory scan loop returns exactly the first live, non-LFN,
byte-for-byte matching entry at or after its start index, and none when
no such entry exists. -/
theorem search_loop_spec (rootdir : Nat → DirEntry) (max_i : Nat)
    (nm ex : List Nat) :
    ∀ i, (∀ e, search_loop rootdir max_i nm ex i = some e ↔
        ∃ k, i ≤ k ∧ k < max_i ∧ entry_matches (rootdir k) nm ex ∧
          (∀ j, i ≤ j → j < k → ¬ entry_matches (rootdir j) nm ex) ∧
          rootdir k = e) ∧
      (search_loop rootdir max_i nm ex i = none ↔
        ∀ k, i ≤ k → k < max_i → ¬ entry_matches (rootdir k) nm ex) := by
  intro i
  refine search_loop.induct rootdir max_i nm ex (fun i =>
    (∀ e, search_loop rootdir max_i nm ex i = some e ↔
      ∃ k, i ≤ k ∧ k < max_i ∧ entry_matches (rootdir k) nm ex ∧
        (∀ j, i ≤ j → j < k → ¬ entry_matches (rootdir j) nm ex) ∧
        rootdir k = e) ∧
    (search_loop rootdir max_i nm ex i = none ↔
      ∀ k, i ≤ k → k < max_i → ¬ entry_matches (rootdir k) nm ex))
    ?_ ?_ ?_ ?_ ?_ i
  · intro x hx hskip ih
    refine search_loop_spec_step rootdir max_i nm ex x hx ?_ ?_ ih
    · intro hm
      rcases hskip with h | h
      · exact hm.1 h
      · exact hm.2.1 h
    · rw [search_loop, dif_pos hx, if_pos hskip]
  · intro x hx hnskip hattr ih
    refine search_loop_spec_step rootdir max_i nm ex x hx ?_ ?_ ih
    · intro hm
      exact hm.2.2.1 hattr
    · rw [search_loop, dif_pos hx, if_neg hnskip, if_pos hattr]
  · intro x hx hnskip hattr heqn
    have hm : entry_matches (rootdir x) nm ex :=
      ⟨fun h => hnskip (Or.inl h), fun h => hnskip (Or.inr h), hattr, heqn⟩
    have hl : search_loop rootdir max_i nm ex x = some (rootdir x) := by
      rw [search_loop, dif_pos hx, if_neg hnskip, if_neg hattr, if_pos heqn]
    constructor
    · intro e
      rw [hl]
      constructor
      · intro he
        have he2 : rootdir x = e := by injection he
        exact ⟨x, le_refl x, hx, hm, fun j hj1 hj2 => absurd hj2 (by omega), he2⟩
      · rintro ⟨k, h1, h2, h3, h4, h5⟩
        have hkx : k = x := by
          by_contra hne
          exact h4 x (le_refl x) (by omega) hm
        subst hkx
        rw [h5]
    · rw [hl]
      constructor
      · intro h
        simp at h
      · intro hall
        exact absurd hm (hall x (le_refl x) hx)
  · intro x hx hnskip hattr hne ih
    refine search_loop_spec_step rootdir max_i nm ex x hx ?_ ?_ ih
    · intro hm
      exact hne hm.2.2.2
    · rw [search_loop, dif_pos hx, if_neg hnskip, if_neg hattr, if_neg hne]
  · intro x hx
    have hl : search_loop rootdir max_i nm ex x = none := by
      rw [search_loop, dif_neg hx]
    constructor
    · intro e
      rw [hl]
      constructor
      · intro h
        simp at h
      · rintro ⟨k, h1, h2, -⟩
        omega
    · rw [hl]
      constructor
      · intro _ k hk1 hk2
        exact absurd hk2 (by omega)
      · intro _
        rfl

/-- C7: when the path parses, `search_file` scans exactly the
`root_entry_count` entries in order from index 0, skips every entry whose
first name byte is 0x00 or 0xE5 and every entry whose attributes byte is
the long-filename marker 0x0F (even if its raw bytes would match),
returns the first remaining entry whose 8 name bytes and 3 extension
bytes match byte-for-byte (no case normalization), and reports not-found
when no entry matches. -/
theorem C7_search_scan (bpb : BPB) (rootdir : Nat → DirEntry)
    (path : Nat → Nat) (nm ex : List Nat)
    (hsplit : split_path path = some (nm, ex)) :
    (∀ e, search_file bpb rootdir path = some e ↔
      ∃ k, k < bpb.root_entry_count ∧ entry_matches (rootdir k) nm ex ∧
        (∀ j, j < k → ¬ entry_matches (rootdir j) nm ex) ∧ rootdir k = e) ∧
    (search_file bpb rootdir path = none ↔
      ∀ k, k < bpb.root_entry_count → ¬ entry_matches (rootdir k) nm ex) := by
  have hsf : search_file bpb rootdir path =
      search_loop rootdir bpb.root_entry_count nm ex 0 := by
    unfold search_file
    rw [hsplit]
  obtain ⟨h1, h2⟩ := search_loop_spec rootdir bpb.root_entry_count nm ex 0
  constructor
  · intro e
    rw [hsf, h1 e]
    constructor
    · rintro ⟨k, -, g2, g3, g4, g5⟩
      exact ⟨k, g2, g3, fun j hj => g4 j (by omega) hj, g5⟩
    · rintro ⟨k, g2, g3, g4, g5⟩
      exact ⟨k, by omega, g2, g3, fun j hj1 hj2 => g4 j hj2, g5⟩
  · rw [hsf, h2]
    constructor
    · intro hall k hk
      exact hall k (by omega) hk
    · intro hall k hk1 hk2
      exact hall k hk2

/-- Witness for C7: the path "A" parses, entry 0 is a long-filename
fragment whose raw bytes match, entry 1 is the real match; the scan skips
entry 0 and returns entry 1. -/
theorem C7_search_scan_witness :
    split_path (fun n => if n = 0 then 65 else 0) =
      some ((List.replicate 8 32).set 0 65, List.replicate 3 32) ∧
    search_file ⟨512, 1, 1, 2, 32, 2⟩
      (fun i => if i = 0 then
          ⟨(List.replicate 8 32).set 0 65, List.replicate 3 32, 15, 2, 0⟩
        else ⟨(List.replicate 8 32).set 0 65, List.replicate 3 32, 0, 3, 7⟩)
      (fun n => if n = 0 then 65 else 0) =
      some ⟨(List.replicate 8 32).set 0 65, List.replicate 3 32, 0, 3, 7⟩ := by
  have hsp : split_path (fun n => if n = 0 then 65 else 0) =
      some ((List.replicate 8 32).set 0 65, List.replicate 3 32) := by
    simp [split_path, split_name_loop, split_ext_loop]
  refine ⟨hsp, ?_⟩
  have h := C7_search_scan ⟨512, 1, 1, 2, 32, 2⟩
    (fun i => if i = 0 then
        ⟨(List.replicate 8 32).set 0 65, List.replicate 3 32, 15, 2, 0⟩
      else ⟨(List.replicate 8 32).set 0 65, List.replicate 3 32, 0, 3, 7⟩)
    (fun n => if n = 0 then 65 else 0)
    ((List.replicate 8 32).set 0 65) (List.replicate 3 32) hsp
  refine (h.1 _).mpr ⟨1, by decide, by unfold entry_matches; decide, ?_, by simp⟩
  intro j hj
  have hj0 : j = 0 := by omega
  subst hj0
  unfold entry_matches
  decide

end Rebel
